import Mathlib

/-!
A verification development of the Minecraft Server List Ping prober in
`launcher.py`: the VarInt codec (`_pack_varint`, `_read_varint`), the
handshake/status exchange (`mc_status`), and the parsing of the status
JSON payload.

Modelling conventions:
* Bytes are natural numbers below 256; byte strings are `List Nat`.
* Python's unbounded `int` is `Int`; `value & 0xFFFFFFFF` on a possibly
  negative `int` equals the residue `value % 2 ^ 32` in `[0, 2 ^ 32)`
  (Python's `%` on a positive modulus and `Int.emod` agree there).
* The TCP socket is a record `Sock`: the bytes the peer will deliver
  (`buf`), whether the stream then ends cleanly (`eof = true`: `recv`
  returns an empty byte string) or blocks until the read timeout fires
  (`eof = false`: `recv` raises `socket.timeout`, whose `str(e)` is
  "timed out"), the log of bytes sent, and whether `close` was called.
  `recv n` returns `min n buf.length` bytes, one legal TCP behaviour.
* Exceptions are modelled with `Except String`, the string being what
  Python's `str(e)` yields for the raised exception.
-/

/-! ## Bitwise arithmetic helpers

The source works with `& 0x7F`, `| 0x80`, `<< (7 * n)` and `>> 7`; the
lemmas below convert those to `%`, `+`, `*` and `/` so that `omega` and
`ring` can finish the arithmetic.
-/

theorem and_two_pow_sub_one_eq_mod (x n : Nat) : x &&& (2 ^ n - 1) = x % 2 ^ n := by
  apply Nat.eq_of_testBit_eq
  intro i
  rw [Nat.testBit_land, Nat.testBit_two_pow_sub_one, Nat.testBit_mod_two_pow, Bool.and_comm]

theorem and_127_eq_mod (x : Nat) : x &&& 127 = x % 128 := by
  have h := and_two_pow_sub_one_eq_mod x 7
  norm_num at h
  exact h

theorem lor_shiftLeft_eq_add {a : Nat} (b k : Nat) (h : a < 2 ^ k) :
    a ||| (b <<< k) = a + b * 2 ^ k := by
  apply Nat.eq_of_testBit_eq
  intro j
  rw [Nat.testBit_lor, Nat.testBit_shiftLeft]
  have hadd : a + b * 2 ^ k = 2 ^ k * b + a := by ring
  rw [hadd, Nat.testBit_mul_pow_two_add b h j]
  rcases Nat.lt_or_ge j k with hjk | hjk
  · simp [hjk, Nat.not_le.mpr hjk]
  · have ha : a.testBit j = false :=
      Nat.testBit_lt_two_pow (lt_of_lt_of_le h (Nat.pow_le_pow_right (by norm_num) hjk))
    simp [ha, hjk, Nat.not_lt.mpr hjk]

theorem and_128_of_lt {x : Nat} (h : x < 128) : x &&& 128 = 0 := by
  have h128 : (128 : Nat) = 2 ^ 7 := by norm_num
  rw [h128, Nat.and_two_pow]
  have : x.testBit 7 = false := Nat.testBit_lt_two_pow (by norm_num [h128] at h ⊢; omega)
  simp [this]

theorem and_128_of_ge {x : Nat} (hlo : 128 ≤ x) (hhi : x < 256) : x &&& 128 ≠ 0 := by
  have h128 : (128 : Nat) = 2 ^ 7 := by norm_num
  rw [h128, Nat.and_two_pow]
  have ht : x.testBit 7 = true := by
    rw [Nat.testBit_to_div_mod]
    simp only [decide_eq_true_eq]
    norm_num
    omega
  simp [ht]

/-! ## VarInt codec -/

/-- The encoder loop of `_pack_varint` (launcher.py lines 152-159), run
after the initial 32-bit mask: emit the low 7 bits of `v`, shift `v`
right by 7, and set bit 7 (the continuation bit) on every emitted byte
except the last. -/
def packVarintAux (v : Nat) : List Nat :=
  if h : v >>> 7 ≠ 0 then ((v &&& 127) ||| 128) :: packVarintAux (v >>> 7)
  else [v &&& 127]
termination_by v
decreasing_by
  rw [Nat.shiftRight_eq_div_pow] at h ⊢
  exact Nat.div_lt_self (Nat.pos_of_ne_zero (fun hv => h (by simp [hv]))) (by norm_num)

/-- `_pack_varint` (launcher.py lines 149-160): mask the Python int to 32
bits (`value & 0xFFFFFFFF`, i.e. the residue mod `2 ^ 32`), then emit
base-128 digits low-order first with continuation bits. -/
def pack_varint (value : Int) : List Nat :=
  packVarintAux ((value % (2 ^ 32 : Int)).toNat)

/-- One TCP connection as the prober sees it: the inbound bytes the peer
will deliver before the stream ends, whether that end is a clean close
(`recv` then returns an empty byte string) or a read timeout, the bytes
sent so far, and whether the socket has been closed. -/
structure Sock where
  buf : List Nat
  eof : Bool
  sent : List Nat
  closed : Bool
deriving Repr

/-- A computation over one socket: Python code that may raise (the
`Except`) while reading and writing the connection (the `Sock` state,
preserved when an exception is raised). -/
abbrev SockM (α : Type) := Sock → Except String α × Sock

/-- The loop of `_read_varint` (launcher.py lines 162-176), with the
socket specialised to the stream model: `recv(1)` yields the head of the
remaining bytes, and on an exhausted stream either an empty read (clean
close, so `ConnectionError("EOF")`) or `socket.timeout` ("timed out").
Python increments `num_read` and checks `num_read > 5` after consuming a
byte and before testing its continuation bit, so reading a sixth byte
always raises `ValueError("VarInt too big")`. Returns the outcome and the
unread remainder of the stream. -/
def readVarintCore (eof : Bool) : List Nat → Nat → Nat → Except String Nat × List Nat
  | [], _, _ => ((if eof then .error ("EOF") else .error ("timed out")), [])
  | b :: rest, numRead, result =>
    if numRead + 1 > 5 then (.error ("VarInt too big"), rest)
    else if b &&& 128 = 0 then (.ok (result ||| ((b &&& 127) <<< (7 * numRead))), rest)
    else readVarintCore eof rest (numRead + 1) (result ||| ((b &&& 127) <<< (7 * numRead)))

/-- `_read_varint` as a socket computation: run the loop on the unread
bytes, starting with `num_read = 0` and `result = 0`. -/
def read_varint : SockM Nat := fun st =>
  let p := readVarintCore st.eof st.buf 0 0
  (p.1, { st with buf := p.2 })

/-! ## Facts about the codec -/

theorem packVarintAux_low (v : Nat) (h : v >>> 7 = 0) : packVarintAux v = [v &&& 127] := by
  rw [packVarintAux]
  simp [h]

theorem packVarintAux_high (v : Nat) (h : v >>> 7 ≠ 0) :
    packVarintAux v = ((v &&& 127) ||| 128) :: packVarintAux (v >>> 7) := by
  rw [packVarintAux]
  simp [h]

theorem shiftRight7_eq_zero_iff (v : Nat) : v >>> 7 = 0 ↔ v < 128 := by
  rw [Nat.shiftRight_eq_div_pow]
  norm_num
  omega

/-- The continuation byte `(v &&& 127) ||| 128` written arithmetically. -/
theorem cont_byte_eq (v : Nat) : (v &&& 127) ||| 128 = v % 128 + 128 := by
  rw [and_127_eq_mod]
  have h : v % 128 < 2 ^ 7 := by
    have := Nat.mod_lt v (show 0 < 128 by norm_num)
    omega
  have h2 := lor_shiftLeft_eq_add 1 7 h
  rw [show (1 : Nat) <<< 7 = 128 from rfl] at h2
  rw [h2]
  norm_num

/-- Round trip of the codec core: decoding the encoder's output (plus any
trailing bytes) succeeds and accumulates onto `result`, as long as the
value fits in the remaining byte budget. -/
theorem readVarintCore_pack (v : Nat) :
    ∀ (numRead result : Nat) (eof : Bool) (rest : List Nat),
      result < 2 ^ (7 * numRead) → v < 2 ^ (7 * (5 - numRead)) → numRead < 5 →
      readVarintCore eof (packVarintAux v ++ rest) numRead result
        = (.ok (result + v * 2 ^ (7 * numRead)), rest) := by
  induction v using Nat.strong_induction_on with
  | _ v ih =>
    intro numRead result eof rest hres hv hnr
    by_cases h7 : v >>> 7 = 0
    · have hv128 : v < 128 := (shiftRight7_eq_zero_iff v).mp h7
      rw [packVarintAux_low v h7]
      have hvmod : v &&& 127 = v := by rw [and_127_eq_mod]; exact Nat.mod_eq_of_lt hv128
      have h6 : ¬ numRead + 1 > 5 := by omega
      simp only [List.cons_append, List.nil_append, List.append_eq, readVarintCore,
        if_neg h6, hvmod, if_pos (and_128_of_lt hv128)]
      rw [lor_shiftLeft_eq_add v (7 * numRead) hres]
    · have hv128 : 128 ≤ v := by
        rcases Nat.lt_or_ge v 128 with h | h
        · exact absurd ((shiftRight7_eq_zero_iff v).mpr h) h7
        · exact h
      have hnr3 : numRead ≤ 3 := by
        by_contra hgt
        have h4 : numRead = 4 := by omega
        rw [h4] at hv
        norm_num at hv
        omega
      rw [packVarintAux_high v h7]
      simp only [List.cons_append, List.append_eq, readVarintCore]
      have h6 : ¬ numRead + 1 > 5 := by omega
      rw [if_neg h6]
      have hcb : (v &&& 127) ||| 128 = v % 128 + 128 := cont_byte_eq v
      have hmod128 : v % 128 < 128 := Nat.mod_lt v (by norm_num)
      have hb127 : ((v &&& 127) ||| 128) &&& 127 = v % 128 := by
        rw [hcb, and_127_eq_mod, Nat.add_mod_right]
        exact Nat.mod_mod_of_dvd v (dvd_refl 128)
      have hb128 : ¬ ((v &&& 127) ||| 128) &&& 128 = 0 := by
        rw [hcb]
        exact and_128_of_ge (by omega) (by omega)
      rw [if_neg hb128, hb127]
      have hshift : v >>> 7 = v / 128 := by
        rw [Nat.shiftRight_eq_div_pow]
      have hresBound : result ||| (v % 128) <<< (7 * numRead)
          = result + v % 128 * 2 ^ (7 * numRead) :=
        lor_shiftLeft_eq_add (v % 128) (7 * numRead) hres
      rw [hresBound]
      have hvlt : v >>> 7 < v := by
        rw [hshift]
        exact Nat.div_lt_self (by omega) (by norm_num)
      have hpow : (2 : Nat) ^ (7 * (numRead + 1)) = 2 ^ (7 * numRead) * 128 := by
        have : 7 * (numRead + 1) = 7 * numRead + 7 := by ring
        rw [this, pow_add]
        norm_num
      have hres2 : result + v % 128 * 2 ^ (7 * numRead) < 2 ^ (7 * (numRead + 1)) := by
        rw [hpow]
        have h1 : v % 128 * 2 ^ (7 * numRead) ≤ 127 * 2 ^ (7 * numRead) :=
          Nat.mul_le_mul_right _ (by omega)
        have h2 : (0 : Nat) < 2 ^ (7 * numRead) := Nat.pos_pow_of_pos _ (by norm_num)
        nlinarith
      have hv2 : v >>> 7 < 2 ^ (7 * (5 - (numRead + 1))) := by
        rw [hshift]
        apply Nat.div_lt_of_lt_mul
        have hexp : 128 * 2 ^ (7 * (5 - (numRead + 1))) = 2 ^ (7 * (5 - numRead)) := by
          have h1 : (128 : Nat) = 2 ^ 7 := by norm_num
          rw [h1, ← pow_add]
          congr 1
          omega
        rw [hexp]
        exact hv
      have hrec := ih (v >>> 7) hvlt (numRead + 1)
        (result + v % 128 * 2 ^ (7 * numRead)) eof rest hres2 hv2 (by omega)
      rw [hrec]
      have hsplit : 128 * (v / 128) + v % 128 = v := Nat.div_add_mod v 128
      have hval : result + v % 128 * 2 ^ (7 * numRead) + v >>> 7 * 2 ^ (7 * (numRead + 1))
          = result + v * 2 ^ (7 * numRead) := by
        rw [hshift, hpow]
        calc result + v % 128 * 2 ^ (7 * numRead) + v / 128 * (2 ^ (7 * numRead) * 128)
            = result + (128 * (v / 128) + v % 128) * 2 ^ (7 * numRead) := by ring
          _ = result + v * 2 ^ (7 * numRead) := by rw [hsplit]
      rw [hval]

theorem packVarintAux_ne_nil (v : Nat) : packVarintAux v ≠ [] := by
  by_cases h : v >>> 7 = 0
  · rw [packVarintAux_low v h]; simp
  · rw [packVarintAux_high v h]; simp

/-- Length bound for the encoder: a value below `2 ^ (7 * k)` needs at
most `k` bytes (for positive `k`). -/
theorem packVarintAux_length (k : Nat) :
    ∀ v, v < 2 ^ (7 * k) → 0 < k → (packVarintAux v).length ≤ k := by
  induction k with
  | zero => intro v _ h; omega
  | succ k ihk =>
    intro v hv _
    by_cases h : v >>> 7 = 0
    · rw [packVarintAux_low v h]
      simp
    · have hk : 0 < k := by
        by_contra hk0
        have : k = 0 := by omega
        subst this
        norm_num at hv
        exact h ((shiftRight7_eq_zero_iff v).mpr hv)
      rw [packVarintAux_high v h]
      simp only [List.length_cons]
      have hv2 : v >>> 7 < 2 ^ (7 * k) := by
        rw [Nat.shiftRight_eq_div_pow]
        apply Nat.div_lt_of_lt_mul
        have hexp : 2 ^ 7 * 2 ^ (7 * k) = 2 ^ (7 * (k + 1)) := by
          rw [← pow_add]
          congr 1
          ring
        rw [hexp]
        exact hv
      have := ihk (v >>> 7) hv2 hk
      omega

/-- Format of the encoder's output: every byte except the last carries
the continuation bit, and the last does not. -/
theorem packVarintAux_format (v : Nat) :
    (∀ b ∈ (packVarintAux v).dropLast, b &&& 128 ≠ 0) ∧
    (∀ b, (packVarintAux v).getLast? = some b → b &&& 128 = 0) := by
  induction v using Nat.strong_induction_on with
  | _ v ih =>
    by_cases h : v >>> 7 = 0
    · rw [packVarintAux_low v h]
      constructor
      · intro b hb
        simp at hb
      · intro b hb
        simp at hb
        subst hb
        rw [and_127_eq_mod]
        exact and_128_of_lt (Nat.mod_lt v (by norm_num))
    · have hvlt : v >>> 7 < v := by
        rw [Nat.shiftRight_eq_div_pow] at h ⊢
        exact Nat.div_lt_self (Nat.pos_of_ne_zero (fun hv => h (by simp [hv]))) (by norm_num)
      obtain ⟨ih1, ih2⟩ := ih (v >>> 7) hvlt
      rw [packVarintAux_high v h]
      obtain ⟨c, tl, hct⟩ : ∃ c tl, packVarintAux (v >>> 7) = c :: tl := by
        cases hpk : packVarintAux (v >>> 7) with
        | nil => exact absurd hpk (packVarintAux_ne_nil (v >>> 7))
        | cons c tl => exact ⟨c, tl, rfl⟩
      rw [hct] at ih1 ih2 ⊢
      constructor
      · intro b hb
        rw [List.dropLast_cons₂] at hb
        rcases List.mem_cons.mp hb with hb | hb
        · subst hb
          rw [cont_byte_eq]
          exact and_128_of_ge (by omega) (by have := Nat.mod_lt v (show 0 < 128 by norm_num); omega)
        · exact ih1 b hb
      · intro b hb
        rw [List.getLast?_cons_cons] at hb
        exact ih2 b hb

/-- Digits of the encoder's output: the payload bits of byte `j` are the
`j`-th base-128 digit of the value, low-order first. -/
theorem packVarintAux_get (v : Nat) :
    ∀ j < (packVarintAux v).length,
      (packVarintAux v).getD j 0 &&& 127 = v / 128 ^ j % 128 := by
  induction v using Nat.strong_induction_on with
  | _ v ih =>
    intro j hj
    by_cases h : v >>> 7 = 0
    · have hv128 : v < 128 := (shiftRight7_eq_zero_iff v).mp h
      rw [packVarintAux_low v h] at hj ⊢
      simp at hj
      subst hj
      rw [List.getD_cons_zero, and_127_eq_mod, and_127_eq_mod,
        Nat.mod_mod_of_dvd v (dvd_refl 128)]
      norm_num
    · have hvlt : v >>> 7 < v := by
        rw [Nat.shiftRight_eq_div_pow] at h ⊢
        exact Nat.div_lt_self (Nat.pos_of_ne_zero (fun hv => h (by simp [hv]))) (by norm_num)
      rw [packVarintAux_high v h] at hj ⊢
      cases j with
      | zero =>
        rw [List.getD_cons_zero, cont_byte_eq, and_127_eq_mod, Nat.add_mod_right,
          Nat.mod_mod_of_dvd v (dvd_refl 128)]
        norm_num
      | succ j =>
        rw [List.getD_cons_succ]
        simp only [List.length_cons] at hj
        have hj2 : j < (packVarintAux (v >>> 7)).length := by omega
        have hdig := ih (v >>> 7) hvlt j hj2
        rw [hdig]
        have hs : v >>> 7 = v / 128 := by
          rw [Nat.shiftRight_eq_div_pow]
        rw [hs, Nat.div_div_eq_div_mul]
        congr 2
        rw [pow_succ]
        ring

theorem pack_varint_natCast (v : Nat) (hv : v < 2 ^ 32) :
    pack_varint (v : Int) = packVarintAux v := by
  unfold pack_varint
  congr 1
  omega

/-- C1: for every 32-bit value `v`, decoding the byte sequence produced by
`_pack_varint` with `_read_varint` yields `v` back, consuming the whole
encoding; the encoding is at most 5 bytes, carries 7 payload bits per byte
low-order first (byte `j` holds base-128 digit `j`), and has the high bit
set on every byte except the last. -/
theorem c1_varint_roundtrip (v : Nat) (hv : v < 2 ^ 32) :
    read_varint { buf := pack_varint (v : Int), eof := true, sent := [], closed := false }
        = (.ok v, { buf := [], eof := true, sent := [], closed := false }) ∧
    (pack_varint (v : Int)).length ≤ 5 ∧
    (∀ b ∈ (pack_varint (v : Int)).dropLast, b &&& 128 ≠ 0) ∧
    (∀ b, (pack_varint (v : Int)).getLast? = some b → b &&& 128 = 0) ∧
    (∀ j < (pack_varint (v : Int)).length,
      (pack_varint (v : Int)).getD j 0 &&& 127 = v / 128 ^ j % 128) := by
  rw [pack_varint_natCast v hv]
  have hv35 : v < 2 ^ (7 * (5 - 0)) := by
    norm_num
    calc v < 2 ^ 32 := hv
    _ ≤ 2 ^ 35 := Nat.pow_le_pow_right (by norm_num) (by norm_num)
  have hcore := readVarintCore_pack v 0 0 true [] (by norm_num) hv35 (by norm_num)
  refine ⟨?_, ?_, (packVarintAux_format v).1, (packVarintAux_format v).2, packVarintAux_get v⟩
  · show (_, _) = _
    rw [List.append_nil] at hcore
    simp only [read_varint, hcore]
    norm_num
  · apply packVarintAux_length 5 v _ (by norm_num)
    norm_num
    calc v < 2 ^ 32 := hv
    _ ≤ 2 ^ 35 := Nat.pow_le_pow_right (by norm_num) (by norm_num)

theorem c1_witness : 300 < 2 ^ 32 ∧
    read_varint { buf := pack_varint ((300 : Nat) : Int), eof := true, sent := [], closed := false }
      = (.ok 300, { buf := [], eof := true, sent := [], closed := false }) :=
  ⟨by norm_num, (c1_varint_roundtrip 300 (by norm_num)).1⟩

/-- C10: `_pack_varint` reduces its argument modulo `2 ^ 32` before
encoding: every Python int, negative or 32-bit-overflowing included, is
silently wrapped; in particular `-1` encodes like `4294967295`, as the
five bytes `FF FF FF FF 0F`. -/
theorem c10_pack_varint_wraps (value : Int) :
    pack_varint value = pack_varint (value % (2 ^ 32 : Int)) ∧
    pack_varint (-1) = [255, 255, 255, 255, 15] := by
  constructor
  · unfold pack_varint
    congr 1
    omega
  · show packVarintAux ((-1 % (2 ^ 32 : Int)).toNat) = _
    have h : ((-1 % (2 ^ 32 : Int))).toNat = 4294967295 := by decide
    rw [h]
    rw [packVarintAux_high _ (by decide), packVarintAux_high _ (by decide),
      packVarintAux_high _ (by decide), packVarintAux_high _ (by decide),
      packVarintAux_low _ (by decide)]
    decide

/-! ## Decoder failure characterisation -/

/-- Trichotomy of the decoder loop, generalised over its state: with
`numRead` bytes already consumed, the loop raises "VarInt too big" exactly
when the whole remaining byte budget is consumed by continuation bytes and
another byte is available; on a cleanly-closing stream it raises "EOF"
exactly when the stream runs out while every byte seen had the
continuation bit; it succeeds exactly when a byte with clear high bit
occurs within the budget. -/
theorem readVarintCore_cases (input : List Nat) :
    ∀ numRead result, numRead ≤ 5 →
      ((readVarintCore true input numRead result).1 = .error ("VarInt too big")
          ↔ 5 - numRead < input.length ∧ ∀ j < 5 - numRead, input.getD j 0 &&& 128 ≠ 0) ∧
      ((readVarintCore true input numRead result).1 = .error ("EOF")
          ↔ input.length ≤ 5 - numRead ∧ ∀ b ∈ input, b &&& 128 ≠ 0) ∧
      ((∃ v, (readVarintCore true input numRead result).1 = .ok v)
          ↔ ∃ j, j < 5 - numRead ∧ j < input.length ∧ input.getD j 0 &&& 128 = 0) := by
  induction input with
  | nil =>
    intro nr res hnr
    refine ⟨by simp [readVarintCore], by simp [readVarintCore], by simp [readVarintCore]⟩
  | cons b rest ih =>
    intro nr res hnr
    by_cases h6 : nr + 1 > 5
    · have h5 : 5 - nr = 0 := by omega
      refine ⟨?_, ?_, ?_⟩
      · simp [readVarintCore, if_pos h6, h5]
      · simp [readVarintCore, if_pos h6, h5]
      · simp [readVarintCore, if_pos h6, h5]
    · by_cases hterm : b &&& 128 = 0
      · refine ⟨?_, ?_, ?_⟩
        · simp only [readVarintCore, if_neg h6, if_pos hterm]
          constructor
          · intro hcontr
            simp at hcontr
          · rintro ⟨-, hall⟩
            have h0 := hall 0 (by omega)
            simp at h0
            exact absurd hterm h0
        · simp only [readVarintCore, if_neg h6, if_pos hterm]
          constructor
          · intro hcontr
            simp at hcontr
          · rintro ⟨-, hall⟩
            exact absurd hterm (hall b (by simp))
        · simp only [readVarintCore, if_neg h6, if_pos hterm]
          constructor
          · intro _
            exact ⟨0, by omega, by simp, by simpa using hterm⟩
          · intro _
            exact ⟨_, rfl⟩
      · have ihall := ih (nr + 1) (res ||| ((b &&& 127) <<< (7 * nr))) (by omega)
        refine ⟨?_, ?_, ?_⟩
        · simp only [readVarintCore, if_neg h6, if_neg hterm]
          rw [ihall.1]
          constructor
          · rintro ⟨hlen, hall⟩
            refine ⟨by simp; omega, ?_⟩
            intro j hj
            cases j with
            | zero => simpa using hterm
            | succ j =>
              have := hall j (by omega)
              simpa using this
          · rintro ⟨hlen, hall⟩
            simp only [List.length_cons] at hlen
            refine ⟨by omega, ?_⟩
            intro j hj
            have := hall (j + 1) (by omega)
            simpa using this
        · simp only [readVarintCore, if_neg h6, if_neg hterm]
          rw [ihall.2.1]
          constructor
          · rintro ⟨hlen, hall⟩
            refine ⟨by simp; omega, ?_⟩
            intro x hx
            rcases List.mem_cons.mp hx with hx | hx
            · subst hx; exact hterm
            · exact hall x hx
          · rintro ⟨hlen, hall⟩
            simp only [List.length_cons] at hlen
            refine ⟨by omega, ?_⟩
            intro x hx
            exact hall x (List.mem_cons_of_mem b hx)
        · simp only [readVarintCore, if_neg h6, if_neg hterm]
          rw [ihall.2.2]
          constructor
          · rintro ⟨j, hj1, hj2, hj3⟩
            refine ⟨j + 1, by omega, by simp; omega, by simpa using hj3⟩
          · rintro ⟨j, hj1, hj2, hj3⟩
            cases j with
            | zero =>
              simp at hj3
              exact absurd hj3 hterm
            | succ j =>
              simp only [List.length_cons] at hj2
              exact ⟨j, by omega, by omega, by simpa using hj3⟩

/-- C6: `_read_varint` fails exactly when the input is ill-formed. On a
stream that closes cleanly after its bytes: it raises
`ValueError("VarInt too big")` exactly when the first five bytes all carry
the continuation bit and a sixth byte is available (in particular on a
6-byte all-continuation sequence); it raises the end-of-stream
`ConnectionError("EOF")` exactly when the stream ends before a byte with
clear high bit (hence also before any sixth byte); and it succeeds exactly
when a terminating byte occurs among the first five. -/
theorem c6_read_varint_failure_conditions (input : List Nat) :
    ((read_varint { buf := input, eof := true, sent := [], closed := false }).1
        = .error ("VarInt too big")
      ↔ 6 ≤ input.length ∧ ∀ j < 5, input.getD j 0 &&& 128 ≠ 0) ∧
    ((read_varint { buf := input, eof := true, sent := [], closed := false }).1
        = .error ("EOF")
      ↔ input.length ≤ 5 ∧ ∀ b ∈ input, b &&& 128 ≠ 0) ∧
    ((∃ v, (read_varint { buf := input, eof := true, sent := [], closed := false }).1 = .ok v)
      ↔ ∃ j, j < 5 ∧ j < input.length ∧ input.getD j 0 &&& 128 = 0) := by
  have h := readVarintCore_cases input 0 0 (by norm_num)
  simp only [Nat.sub_zero] at h
  have e : (read_varint { buf := input, eof := true, sent := [], closed := false }).1
      = (readVarintCore true input 0 0).1 := rfl
  refine ⟨?_, ?_, ?_⟩
  · rw [e, h.1]
    constructor
    · rintro ⟨h1, h2⟩; exact ⟨by omega, h2⟩
    · rintro ⟨h1, h2⟩; exact ⟨by omega, h2⟩
  · rw [e, h.2.1]
  · rw [e]
    exact h.2.2

/-- Bound on any successfully decoded value, generalised over the loop
state: at most five bytes of seven payload bits each ever enter the
accumulator. -/
theorem readVarintCore_ok_lt :
    ∀ (input : List Nat) (numRead result : Nat) (eof : Bool) (v : Nat),
      result < 2 ^ (7 * numRead) → numRead ≤ 5 →
      (readVarintCore eof input numRead result).1 = .ok v → v < 2 ^ 35 := by
  intro input
  induction input with
  | nil =>
    intro nr res eof v hres hnr hok
    rcases eof with _ | _ <;> simp [readVarintCore] at hok
  | cons b rest ih =>
    intro nr res eof v hres hnr hok
    by_cases h6 : nr + 1 > 5
    · simp [readVarintCore, if_pos h6] at hok
    · by_cases hterm : b &&& 128 = 0
      · have hv : v = res ||| ((b &&& 127) <<< (7 * nr)) := by
          simp only [readVarintCore, if_neg h6, if_pos hterm] at hok
          exact (Except.ok.inj hok).symm
        rw [hv, lor_shiftLeft_eq_add _ _ hres]
        have hb : b &&& 127 ≤ 127 := Nat.and_le_right
        have hp : (0 : Nat) < 2 ^ (7 * nr) := Nat.pos_pow_of_pos _ (by norm_num)
        have h1 : res + (b &&& 127) * 2 ^ (7 * nr) < 128 * 2 ^ (7 * nr) := by nlinarith
        have h2 : (128 : Nat) * 2 ^ (7 * nr) ≤ 2 ^ 35 := by
          have he : (128 : Nat) * 2 ^ (7 * nr) = 2 ^ (7 * nr + 7) := by
            rw [pow_add]; ring
          rw [he]
          exact Nat.pow_le_pow_right (by norm_num) (by omega)
        omega
      · simp only [readVarintCore, if_neg h6, if_neg hterm] at hok
        have hres2 : res ||| ((b &&& 127) <<< (7 * nr)) < 2 ^ (7 * (nr + 1)) := by
          rw [lor_shiftLeft_eq_add _ _ hres]
          have hb : b &&& 127 ≤ 127 := Nat.and_le_right
          have hp : (0 : Nat) < 2 ^ (7 * nr) := Nat.pos_pow_of_pos _ (by norm_num)
          have hpow : (2 : Nat) ^ (7 * (nr + 1)) = 2 ^ (7 * nr) * 128 := by
            rw [show 7 * (nr + 1) = 7 * nr + 7 from by ring, pow_add]
            norm_num
          rw [hpow]
          nlinarith
        exact ih (nr + 1) _ eof v hres2 (by omega) hok

/-- C9 counterexample: `_read_varint` happily returns `2 ^ 35 - 1 =
34359738367` on the five bytes `FF FF FF FF 7F`, a value strictly above
the 32-bit maximum `2 ^ 32 - 1`; the decoder never masks down to 32
bits. -/
theorem c9_counterexample :
    (read_varint
      { buf := [255, 255, 255, 255, 127], eof := true, sent := [], closed := false }).1
        = .ok 34359738367 ∧
    2 ^ 32 - 1 < 34359738367 :=
  ⟨rfl, by norm_num⟩

/-- C9 amended: every value returned without error by `_read_varint` lies
in `[0, 2 ^ 35 - 1]` (five bytes of seven payload bits); values in
`[2 ^ 32, 2 ^ 35)` are reachable, so the true invariant is the 35-bit
bound, not the 32-bit one. -/
theorem c9_read_varint_bound (input : List Nat) (v : Nat)
    (h : (read_varint { buf := input, eof := true, sent := [], closed := false }).1 = .ok v) :
    v < 2 ^ 35 :=
  readVarintCore_ok_lt input 0 0 true v (by norm_num) (by norm_num) h

theorem c9_witness :
    (read_varint
      { buf := [255, 255, 255, 255, 127], eof := true, sent := [], closed := false }).1
        = .ok 34359738367 ∧
    34359738367 < 2 ^ 35 :=
  ⟨rfl, c9_read_varint_bound [255, 255, 255, 255, 127] 34359738367 rfl⟩

/-! ## JSON values and the Python semantics the parser relies on

`json.loads` returns `None`, `bool`, `int`, `str`, `list` or `dict`
values (floats are outside the spec's schema and are not modelled).
`JValue.obj` models a Python dict as produced by `json.loads`: fields in
insertion order with unique keys (a duplicate key overwrites), so
`List.lookup` is dict lookup.
-/

inductive JValue where
  | null
  | bool (b : Bool)
  | num (n : Int)
  | str (s : String)
  | arr (elems : List JValue)
  | obj (fields : List (String × JValue))
deriving Repr

/-- Python truthiness for JSON-decoded values: `None`, `False`, `0`, `""`,
`[]` and `` {} `` are falsy, everything else truthy. -/
def pyTruthy : JValue → Bool
  | .null => false
  | .bool b => b
  | .num n => n != 0
  | .str s => s != ""
  | .arr xs => !xs.isEmpty
  | .obj fs => !fs.isEmpty

/-- Python's type name for a JSON-decoded value, as it appears in
`TypeError`/`AttributeError` messages. -/
def pyTypeName : JValue → String
  | .null => "NoneType"
  | .bool _ => "bool"
  | .num _ => "int"
  | .str _ => "str"
  | .arr _ => "list"
  | .obj _ => "dict"

mutual

/-- Python `repr` of a JSON-decoded value. For strings the model always
quotes with a plain apostrophe and does not escape special characters
inside (CPython switches quotes or escapes when the text holds quotes or
control characters; no claim depends on those strings). -/
def pyRepr : JValue → String
  | .null => "None"
  | .bool true => "True"
  | .bool false => "False"
  | .num n => toString n
  | .str s => "'" ++ s ++ "'"
  | .arr xs => "[" ++ pyReprList xs ++ "]"
  | .obj fs => "\x7b" ++ pyReprFields fs ++ "\x7d"

def pyReprList : List JValue → String
  | [] => ""
  | [x] => pyRepr x
  | x :: y :: rest => pyRepr x ++ ", " ++ pyReprList (y :: rest)

def pyReprFields : List (String × JValue) → String
  | [] => ""
  | [(k, v)] => "'" ++ k ++ "': " ++ pyRepr v
  | (k, v) :: kv :: rest => "'" ++ k ++ "': " ++ pyRepr v ++ ", " ++ pyReprFields (kv :: rest)

end

/-- Python `str` of a JSON-decoded value: a string is itself, anything
else renders as its `repr`. -/
def pyStr : JValue → String
  | .str s => s
  | j => pyRepr j

/-- Python's `x.get(key, default)`: dict lookup with a default; on any
non-dict receiver an `AttributeError` is raised (`str(e)` shown). -/
def pyGet (j : JValue) (key : String) (dflt : JValue) : Except String JValue :=
  match j with
  | .obj fields => .ok ((fields.lookup key).getD dflt)
  | _ => .error ("'" ++ pyTypeName j ++ "' object has no attribute 'get'")

def isPySpace (c : Char) : Bool :=
  c == ' ' || c == '\t' || c == '\n' || c == '\r'

def digitsVal : List Char → Nat → Option Nat
  | [], acc => some acc
  | c :: rest, acc => if c.isDigit then digitsVal rest (acc * 10 + (c.toNat - 48)) else none

/-- Python `int(s)` on a string: strip surrounding whitespace, then an
optional sign and a nonempty run of decimal digits; anything else raises
`ValueError`. (CPython also accepts underscores between digits and
non-ASCII decimal digits; those are not modelled.) -/
def pyIntOfString (s : String) : Except String Int :=
  let t := ((s.toList.dropWhile isPySpace).reverse.dropWhile isPySpace).reverse
  let body : Option Int :=
    match t with
    | '-' :: rest => if rest.isEmpty then none else (digitsVal rest 0).map (fun n => -(n : Int))
    | '+' :: rest => if rest.isEmpty then none else (digitsVal rest 0).map (fun n => (n : Int))
    | _ => if t.isEmpty then none else (digitsVal t 0).map (fun n => (n : Int))
  match body with
  | some n => .ok n
  | none => .error ("invalid literal for int() with base 10: " ++ pyRepr (.str s))

/-- Python `int(x)` on a JSON-decoded value: ints are themselves, bools
coerce to 0/1, strings are parsed, and any other type raises
`TypeError`. -/
def pyInt (j : JValue) : Except String Int :=
  match j with
  | .num n => .ok n
  | .bool b => .ok (if b then 1 else 0)
  | .str s => pyIntOfString s
  | _ => .error ("int() argument must be a string, a bytes-like object or a real number, not '"
      ++ pyTypeName j ++ "'")

/-- Python's `for item in x`: lists iterate their elements, strings their
characters (as 1-character strings), dicts their keys; other types raise
`TypeError`. -/
def pyIterElems (j : JValue) : Except String (List JValue) :=
  match j with
  | .arr xs => .ok xs
  | .str s => .ok (s.toList.map (fun c => .str (String.mk [c])))
  | .obj fs => .ok (fs.map (fun kv => JValue.str kv.1))
  | _ => .error ("'" ++ pyTypeName j ++ "' object is not iterable")

/-! ## Status result parsing (launcher.py lines 220-237) -/

/-- The loop of launcher.py lines 224-228: for each item of the sample,
read `item.get("name")` and keep it when truthy, preserving order.
Errors (a non-dict item) abort at the offending item as in Python. -/
def extractSample : List JValue → Except String (List JValue)
  | [] => .ok []
  | item :: rest => do
    let name ← pyGet item "name" .null
    let tail ← extractSample rest
    pure (if pyTruthy name then name :: tail else tail)

/-- Lines 230-235: the MOTD from the `description` value. A dict yields
its `"text"` entry (default `""`); anything else, string or not, is
passed through Python's `str`. -/
def resolveMotd (desc : JValue) : JValue :=
  match desc with
  | .obj fields => (fields.lookup "text").getD (.str "")
  | _ => .str (pyStr desc)

/-- The `"ok": True` result dict of `mc_status`: online/max counts, the
MOTD value and the sample names kept by the loop (Python appends whatever
truthy value `item.get("name")` returned, hence `JValue`s). -/
structure StatusOk where
  online : Int
  max : Int
  motd : JValue
  sample : List JValue
deriving Repr

/-- Lines 220-237 of `mc_status` after `json.loads`: read
`players.online`/`players.max` through `int(...)` with default `0`,
collect the truthy sample names, and normalise the description. Any
exception raised here (non-dict payload, unconvertible count, non-.
iterable sample) propagates to the `except` clause of `mc_status`. -/
def parseStatus (j : JValue) : Except String StatusOk := do
  let playersRaw ← pyGet j "players" (.obj [])
  let players := if pyTruthy playersRaw then playersRaw else .obj []
  let onlineV ← pyGet players "online" (.num 0)
  let online ← pyInt onlineV
  let maxV ← pyGet players "max" (.num 0)
  let maxp ← pyInt maxV
  let sampleRaw ← pyGet players "sample" .null
  let sampleSeq := if pyTruthy sampleRaw then sampleRaw else .arr []
  let items ← pyIterElems sampleSeq
  let sample ← extractSample items
  let desc ← pyGet j "description" (.str "")
  pure { online := online, max := maxp, motd := resolveMotd desc, sample := sample }

/-- C5 counterexample: a payload whose `description` is the number `5` —
neither a string nor an object, so the claim demands MOTD `""` — parses
to MOTD `"5"`: line 235 applies `str(desc)` to every non-dict value
instead of defaulting to the empty string. -/
theorem c5_counterexample :
    parseStatus (.obj [("description", .num 5)])
      = .ok { online := 0, max := 0, motd := .str "5", sample := [] } := rfl

/-- C5 amended: the `description` value resolves to the MOTD as follows —
a string is used verbatim; an object yields its `"text"` entry with `""`
as default; an absent field defaults to `""`; but any other shape is
passed through Python's `str` (a number renders as its decimal text,
`null` as "None", a boolean as "True"/"False") rather than yielding the
empty string. The parser feeds exactly the `description` entry of the
payload through this normalisation. -/
theorem c5_description_normalization :
    (∀ d, parseStatus (.obj [("description", d)])
        = .ok { online := 0, max := 0, motd := resolveMotd d, sample := [] }) ∧
    (∀ s, resolveMotd (.str s) = .str s) ∧
    (parseStatus (.obj []) = .ok { online := 0, max := 0, motd := .str "", sample := [] }) ∧
    (∀ n : Int, resolveMotd (.num n) = .str (toString n)) ∧
    (resolveMotd .null = .str "None") ∧
    (∀ b : Bool, resolveMotd (.bool b) = .str (if b then "True" else "False")) := by
  refine ⟨fun d => rfl, fun s => rfl, rfl, fun n => rfl, rfl, fun b => ?_⟩
  cases b <;> rfl

/-- C7 counterexample: a payload with `players.online` the string `"7"` —
not an integer, so the claim demands `online = 0` — parses to
`online = 7`: line 222 applies Python's `int()` coercion to the value
instead of defaulting to 0. -/
theorem c7_counterexample :
    parseStatus (.obj [("players", .obj [("online", .str "7")])])
      = .ok { online := 7, max := 0, motd := .str "", sample := [] } := rfl

/-- C7 amended: `players.online` and `players.max` default to 0 when
absent and are read through Python's `int()` when present: integers are
used as-is, booleans coerce to 0/1, numeric strings are parsed, and a
value `int()` rejects (a non-numeric string, a list, ...) raises and
fails the whole probe with the `TypeError`/`ValueError` text rather than
being treated as 0. -/
theorem c7_players_counts :
    (parseStatus (.obj []) = .ok { online := 0, max := 0, motd := .str "", sample := [] }) ∧
    (∀ n m : Int,
      parseStatus (.obj [("players", .obj [("online", .num n), ("max", .num m)])])
        = .ok { online := n, max := m, motd := .str "", sample := [] }) ∧
    (∀ n : Int, pyInt (.num n) = .ok n) ∧
    (pyInt (.bool true) = .ok 1 ∧ pyInt (.bool false) = .ok 0) ∧
    (pyInt (.str "7") = .ok 7) ∧
    (pyInt (.str "abc") = .error ("invalid literal for int() with base 10: 'abc'")) ∧
    (parseStatus (.obj [("players", .obj [("online", .arr [])])])
      = .error ("int() argument must be a string, a bytes-like object or a real number, not 'list'")) :=
  ⟨rfl, fun n m => rfl, fun n => rfl, ⟨rfl, rfl⟩, rfl, rfl, rfl⟩

/-! ## Bytes to JSON: `raw.decode("utf-8", "replace")` and `json.loads` -/

def replacementChar : Char := Char.ofNat 0xFFFD

def isUtf8Cont (b : Nat) : Bool := 128 ≤ b && b < 192

/-- One step of `raw.decode("utf-8", "replace")`: given the lead byte
and the bytes after it, the decoded character — U+FFFD for an ill-formed
sequence — and how many continuation bytes were consumed. On an
ill-formed sequence the model consumes only the lead byte (CPython's
maximal-subpart policy can consume up to three); no claim depends on
ill-formed input. -/
def utf8Step (b : Nat) (rest : List Nat) : Char × Nat :=
  if b < 128 then (Char.ofNat b, 0)
  else if 194 ≤ b && b ≤ 223 then
    match rest with
    | c1 :: _ =>
      if isUtf8Cont c1 then (Char.ofNat ((b - 192) * 64 + (c1 - 128)), 1)
      else (replacementChar, 0)
    | [] => (replacementChar, 0)
  else if 224 ≤ b && b ≤ 239 then
    match rest with
    | c1 :: c2 :: _ =>
      if isUtf8Cont c1 && isUtf8Cont c2 then
        if 2048 ≤ (b - 224) * 4096 + (c1 - 128) * 64 + (c2 - 128) &&
            !(55296 ≤ (b - 224) * 4096 + (c1 - 128) * 64 + (c2 - 128) &&
              (b - 224) * 4096 + (c1 - 128) * 64 + (c2 - 128) < 57344) then
          (Char.ofNat ((b - 224) * 4096 + (c1 - 128) * 64 + (c2 - 128)), 2)
        else (replacementChar, 0)
      else (replacementChar, 0)
    | _ => (replacementChar, 0)
  else if 240 ≤ b && b ≤ 244 then
    match rest with
    | c1 :: c2 :: c3 :: _ =>
      if isUtf8Cont c1 && isUtf8Cont c2 && isUtf8Cont c3 then
        if 65536 ≤ (b - 240) * 262144 + (c1 - 128) * 4096 + (c2 - 128) * 64 + (c3 - 128) &&
            (b - 240) * 262144 + (c1 - 128) * 4096 + (c2 - 128) * 64 + (c3 - 128) ≤ 1114111 then
          (Char.ofNat ((b - 240) * 262144 + (c1 - 128) * 4096 + (c2 - 128) * 64 + (c3 - 128)), 3)
        else (replacementChar, 0)
      else (replacementChar, 0)
    | _ => (replacementChar, 0)
  else (replacementChar, 0)

/-- `raw.decode("utf-8", "replace")`, looping `utf8Step` over the
bytes. -/
def utf8DecodeAux : List Nat → List Char
  | [] => []
  | b :: rest =>
    (utf8Step b rest).1 :: utf8DecodeAux (rest.drop (utf8Step b rest).2)
termination_by bs => bs.length
decreasing_by
  simp only [List.length_drop, List.length_cons]
  omega

def utf8DecodeReplace (bs : List Nat) : String := String.mk (utf8DecodeAux bs)

/-- On pure-ASCII input the UTF-8 decoder is the identity, byte to
character. -/
theorem utf8DecodeAux_ascii (bs : List Nat) (h : ∀ b ∈ bs, b < 128) :
    utf8DecodeAux bs = bs.map Char.ofNat := by
  induction bs with
  | nil => rw [utf8DecodeAux.eq_def]; rfl
  | cons b rest ih =>
    have hb : b < 128 := h b (by simp)
    rw [utf8DecodeAux.eq_def]
    dsimp only
    have hstep : utf8Step b rest = (Char.ofNat b, 0) := by
      unfold utf8Step
      rw [if_pos hb]
    rw [hstep]
    dsimp only
    rw [List.drop_zero, ih (fun x hx => h x (by simp [hx]))]
    rfl

def jsonWs (c : Char) : Bool := c == ' ' || c == '\t' || c == '\n' || c == '\r'

def lbrace : Char := Char.ofNat 123

def rbrace : Char := Char.ofNat 125

def hexVal (c : Char) : Option Nat :=
  if c.isDigit then some (c.toNat - 48)
  else if 'a' ≤ c && c ≤ 'f' then some (c.toNat - 87)
  else if 'A' ≤ c && c ≤ 'F' then some (c.toNat - 55)
  else none

/-- The JSON string grammar after the opening quote: plain characters up
to the closing quote, the standard escapes and `\uXXXX` (a lone
surrogate escape, which CPython would accept, has no `Char` and errors
in the model). Unescaped control characters error as in CPython. -/
def jsonString : List Char → List Char → Except String (JValue × List Char)
  | [], _ => .error ("Unterminated string")
  | c :: rest, acc =>
    if c == '"' then .ok (.str (String.mk acc.reverse), rest)
    else if c == '\\' then
      match rest with
      | [] => .error ("Unterminated string")
      | e :: rest2 =>
        if e == '"' then jsonString rest2 ('"' :: acc)
        else if e == '\\' then jsonString rest2 ('\\' :: acc)
        else if e == '/' then jsonString rest2 ('/' :: acc)
        else if e == 'b' then jsonString rest2 (Char.ofNat 8 :: acc)
        else if e == 'f' then jsonString rest2 (Char.ofNat 12 :: acc)
        else if e == 'n' then jsonString rest2 ('\n' :: acc)
        else if e == 'r' then jsonString rest2 ('\r' :: acc)
        else if e == 't' then jsonString rest2 ('\t' :: acc)
        else if e == 'u' then
          match rest2 with
          | h1 :: h2 :: h3 :: h4 :: rest3 =>
            match hexVal h1, hexVal h2, hexVal h3, hexVal h4 with
            | some a, some b, some c2, some d =>
              if 55296 ≤ a * 4096 + b * 256 + c2 * 16 + d &&
                  a * 4096 + b * 256 + c2 * 16 + d < 57344 then
                .error ("surrogate escape (not modelled)")
              else jsonString rest3 (Char.ofNat (a * 4096 + b * 256 + c2 * 16 + d) :: acc)
            | _, _, _, _ => .error ("Invalid \\uXXXX escape")
          | _ => .error ("Invalid \\uXXXX escape")
        else .error ("Invalid \\escape")
    else if c.toNat < 32 then .error ("Invalid control character")
    else jsonString rest (c :: acc)

/-- The JSON number grammar restricted to integers: optional minus, then
`0` or a nonzero digit followed by digits. A fraction or exponent would
be a float, which is outside the modelled schema and errors. -/
def jsonNumberBody (neg : Bool) (t : List Char) : Except String (JValue × List Char) :=
  match t with
  | [] => .error ("Expecting value")
  | d :: rest =>
    if !d.isDigit then .error ("Expecting value")
    else
      let digits := if d == '0' then [d] else d :: rest.takeWhile Char.isDigit
      let rest2 := if d == '0' then rest else rest.dropWhile Char.isDigit
      if rest2.head? == some '.' || rest2.head? == some 'e' || rest2.head? == some 'E' then
        .error ("float payload (not modelled)")
      else
        match digitsVal digits 0 with
        | some n => .ok (.num (if neg then -(n : Int) else (n : Int)), rest2)
        | none => .error ("Expecting value")

def jsonNumber (s : List Char) : Except String (JValue × List Char) :=
  match s with
  | '-' :: t => jsonNumberBody true t
  | t => jsonNumberBody false t

/-- Dict insertion as `json.loads` performs it: a duplicate key
overwrites the value in place, otherwise the pair is appended. -/
def setField : List (String × JValue) → String → JValue → List (String × JValue)
  | [], k, v => [(k, v)]
  | (k1, v1) :: rest, k, v =>
    if k1 == k then (k1, v) :: rest else (k1, v1) :: setField rest k v

mutual

/-- Recursive-descent model of `json.loads`'s value grammar. The fuel
only bounds recursion depth (CPython has a recursion limit too); every
recursive call consumes at least one input character first, so fuel
exceeding the input length never runs out. -/
def jsonValue : Nat → List Char → Except String (JValue × List Char)
  | 0, _ => .error ("json recursion limit (model)")
  | fuel + 1, s =>
    match s.dropWhile jsonWs with
    | [] => .error ("Expecting value")
    | c :: rest =>
      if c == '"' then jsonString rest []
      else if c == lbrace then jsonObject fuel rest []
      else if c == '[' then jsonArray fuel rest []
      else if c == 't' then
        (if rest.take 3 == ['r', 'u', 'e'] then .ok (.bool true, rest.drop 3)
         else .error ("Expecting value"))
      else if c == 'f' then
        (if rest.take 4 == ['a', 'l', 's', 'e'] then .ok (.bool false, rest.drop 4)
         else .error ("Expecting value"))
      else if c == 'n' then
        (if rest.take 3 == ['u', 'l', 'l'] then .ok (.null, rest.drop 3)
         else .error ("Expecting value"))
      else jsonNumber (c :: rest)

def jsonObject : Nat → List Char → List (String × JValue) → Except String (JValue × List Char)
  | 0, _, _ => .error ("json recursion limit (model)")
  | fuel + 1, s, acc =>
    match s.dropWhile jsonWs with
    | [] => .error ("Expecting property name enclosed in double quotes")
    | c :: rest =>
      if c == rbrace && acc.isEmpty then .ok (.obj acc, rest)
      else if c == '"' then
        match jsonString rest [] with
        | .error e => .error e
        | .ok (.str k, rest2) =>
          (match rest2.dropWhile jsonWs with
           | ':' :: rest3 =>
             (match jsonValue fuel rest3 with
              | .error e => .error e
              | .ok (v, rest4) =>
                (match rest4.dropWhile jsonWs with
                 | ',' :: rest5 => jsonObject fuel rest5 (setField acc k v)
                 | c2 :: rest5 =>
                   if c2 == rbrace then .ok (.obj (setField acc k v), rest5)
                   else .error ("Expecting ',' delimiter")
                 | [] => .error ("Expecting ',' delimiter")))
           | _ => .error ("Expecting ':' delimiter"))
        | .ok (_, _) => .error ("Expecting property name enclosed in double quotes")
      else .error ("Expecting property name enclosed in double quotes")

def jsonArray : Nat → List Char → List JValue → Except String (JValue × List Char)
  | 0, _, _ => .error ("json recursion limit (model)")
  | fuel + 1, s, acc =>
    match s.dropWhile jsonWs with
    | [] => .error ("Expecting value")
    | c :: rest =>
      if c == ']' && acc.isEmpty then .ok (.arr acc.reverse, rest)
      else
        match jsonValue fuel (c :: rest) with
        | .error e => .error e
        | .ok (v, rest2) =>
          (match rest2.dropWhile jsonWs with
           | ',' :: rest3 => jsonArray fuel rest3 (v :: acc)
           | c2 :: rest3 =>
             if c2 == ']' then .ok (.arr (v :: acc).reverse, rest3)
             else .error ("Expecting ',' delimiter")
           | [] => .error ("Expecting ',' delimiter"))

end

/-- Model of `json.loads` over the schema the prober consumes: objects,
arrays, strings, integers, `true`/`false`/`null`, JSON whitespace, and
trailing-garbage detection ("Extra data"). Floats and surrogate escapes
error instead of producing values the model cannot represent. -/
def jsonLoads (s : String) : Except String JValue :=
  match jsonValue (s.length + 4) s.toList with
  | .error e => .error e
  | .ok (v, rest) =>
    if (rest.dropWhile jsonWs).isEmpty then .ok v
    else .error ("Extra data")

/-! ## The exchange: `mc_status` (launcher.py lines 178-239) -/

/-- The payload loop of lines 212-217, socket specialised: repeatedly
`recv(str_len - len(raw))` — which returns up to that many of the
remaining bytes — and append the chunk, stopping once `raw` is long
enough or a `recv` returns the empty byte string (peer closed). The loop
BREAKS on a short stream and keeps the partial `raw`; it does not raise.
On an exhausted stream with `eof = false` the `recv` raises the read
timeout instead. Returns the outcome and the unread remainder. -/
def readPayloadCore (eof : Bool) (strLen : Nat) (raw buf : List Nat) :
    Except String (List Nat) × List Nat :=
  if h : raw.length < strLen then
    match buf with
    | [] => (if eof then (.ok raw, []) else (.error ("timed out"), []))
    | b :: rest =>
      readPayloadCore eof strLen (raw ++ (b :: rest).take (strLen - raw.length))
        ((b :: rest).drop (strLen - raw.length))
  else (.ok raw, buf)
termination_by strLen - raw.length
decreasing_by
  simp only [List.length_append, List.length_take, List.length_cons]
  omega

/-- The payload loop as a socket computation (`raw = b""` initially). -/
def readPayloadS (strLen : Nat) : SockM (List Nat) := fun st =>
  let p := readPayloadCore st.eof strLen [] st.buf
  (p.1, { st with buf := p.2 })

/-- Closed form of the payload loop under the stream model: enough bytes
buffered means a full read, a short cleanly-closed stream returns the
partial bytes, a short stream without close times out. -/
theorem readPayloadCore_spec (eof : Bool) (strLen : Nat) (raw buf : List Nat) :
    readPayloadCore eof strLen raw buf =
      if strLen ≤ raw.length then (.ok raw, buf)
      else if strLen - raw.length ≤ buf.length then
        (.ok (raw ++ buf.take (strLen - raw.length)), buf.drop (strLen - raw.length))
      else if eof then (.ok (raw ++ buf), []) else (.error ("timed out"), []) := by
  rw [readPayloadCore.eq_def]
  by_cases h1 : raw.length < strLen
  · rw [dif_pos h1]
    have hns : ¬ (strLen ≤ raw.length) := by omega
    rw [if_neg hns]
    cases buf with
    | nil =>
      have hn : ¬ (strLen - raw.length ≤ ([] : List Nat).length) := by
        simp only [List.length_nil, Nat.le_zero]
        omega
      rw [if_neg hn]
      dsimp only
      cases eof <;> simp
    | cons b rest =>
      dsimp only
      by_cases h2 : strLen - raw.length ≤ (b :: rest).length
      · rw [if_pos h2, readPayloadCore.eq_def]
        have hlen : (raw ++ (b :: rest).take (strLen - raw.length)).length = strLen := by
          rw [List.length_append, List.length_take_of_le h2]
          omega
        have hc : ¬ ((raw ++ (b :: rest).take (strLen - raw.length)).length < strLen) := by
          rw [hlen]
          omega
        rw [dif_neg hc]
      · rw [if_neg h2]
        have h2n : rest.length + 2 ≤ strLen - raw.length := by
          simp only [List.length_cons] at h2
          omega
        have htake : (b :: rest).take (strLen - raw.length) = b :: rest := by
          apply List.take_of_length_le
          simp only [List.length_cons]
          omega
        have hdrop : (b :: rest).drop (strLen - raw.length) = [] := by
          apply List.drop_eq_nil_of_le
          simp only [List.length_cons]
          omega
        rw [htake, hdrop, readPayloadCore.eq_def]
        have hc : (raw ++ b :: rest).length < strLen := by
          simp only [List.length_append, List.length_cons]
          omega
        rw [dif_pos hc]
  · rw [dif_neg h1]
    have hs : strLen ≤ raw.length := by omega
    rw [if_pos hs]

/-- UTF-8 bytes of the host string (`host.encode("utf-8")`). -/
def hostBytes (host : String) : List Nat := host.toUTF8.toList.map (fun b => b.toNat)

/-- `struct.pack(">H", port)` for `port < 65536`: big-endian 16 bits. -/
def packUShortBE (port : Nat) : List Nat := [port / 256, port % 256]

/-- Lines 191-198: the handshake frame body `data`, joined in source
order: packet id 0, protocol version 762, host length, host bytes,
big-endian port, next state 1. -/
def mcHandshakeData (host : String) (port : Nat) : List Nat :=
  pack_varint 0 ++ pack_varint 762 ++ pack_varint (((hostBytes host).length : Int))
    ++ hostBytes host ++ packUShortBE port ++ pack_varint 1

/-- Line 199: the full handshake packet, the VarInt length prefix
computed over `data` and prepended. -/
def mcHandshakePacket (host : String) (port : Nat) : List Nat :=
  pack_varint (((mcHandshakeData host port).length : Int)) ++ mcHandshakeData host port

/-- Line 203: the status-request packet, `encode(1) ++ encode(0)`. -/
def statusRequestBytes : List Nat := pack_varint 1 ++ pack_varint 0

/-- Lines 185-218 of `mc_status` once the connection exists: send the
handshake packet and the status request (two `sendall`s, hence the two
appends to the log), read the frame length (discarded), the packet id
(raise on a non-zero id), the payload length, then the payload; close
the socket; return the raw payload bytes. A raise at any step propagates
with the socket state as it stood — in particular with the socket NOT
closed, since `s.close()` (line 218) only runs after the payload loop.
`struct.pack(">H", port)` raises for a port above 16 bits before
anything is sent. -/
def mcNetPhase (host : String) (port : Nat) : SockM (List Nat) := fun st =>
  if port < 65536 then
    match read_varint { st with
        sent := st.sent ++ mcHandshakePacket host port ++ statusRequestBytes } with
    | (.error e, st3) => (.error e, st3)
    | (.ok _, st3) =>
      match read_varint st3 with
      | (.error e, st4) => (.error e, st4)
      | (.ok pid, st4) =>
        if pid ≠ 0 then (.error ("Unexpected packet id " ++ toString pid), st4)
        else
          match read_varint st4 with
          | (.error e, st5) => (.error e, st5)
          | (.ok strLen, st5) =>
            match readPayloadS strLen st5 with
            | (.error e, st6) => (.error e, st6)
            | (.ok raw, st6) => (.ok raw, { st6 with closed := true })
  else (.error ("'H' format requires 0 <= number <= 65535"), st)

/-- The environment of one `mc_status` call: whether
`socket.create_connection` itself raises (DNS failure, refused
connection, connect timeout — `connectErr` carries `str(e)`), and
otherwise the connection's behaviour (bytes the peer delivers, and
whether it then closes cleanly or lets the read time out). -/
structure Env where
  connectErr : Option String
  inbound : List Nat
  eof : Bool

/-- The body of `mc_status` up to the `except` boundary: its outcome
together with the socket it used (`none` when `create_connection` itself
raised, so no socket ever existed). After the network phase the body
decodes the payload (UTF-8 with replacement, line 220), `json.loads` it,
and parses the status fields; those steps run after `s.close()` and
cannot touch the socket. -/
def mcStatusRun (host : String) (port : Nat) (env : Env) :
    Except String StatusOk × Option Sock :=
  match env.connectErr with
  | some e => (.error e, none)
  | none =>
    match mcNetPhase host port { buf := env.inbound, eof := env.eof, sent := [], closed := false } with
    | (.error e, st1) => (.error e, some st1)
    | (.ok raw, st1) =>
      match jsonLoads (utf8DecodeReplace raw) with
      | .error e => (.error e, some st1)
      | .ok j =>
        match parseStatus j with
        | .error e => (.error e, some st1)
        | .ok r => (.ok r, some st1)

/-- The result dict of `mc_status`: the `"ok": True` shape or the
`"ok": False` shape with the error text. -/
inductive StatusResult where
  | ok (r : StatusOk)
  | offline (reason : String)
deriving Repr

/-- `mc_status` (lines 178-239): the whole body runs inside `try`; any
exception `e` raised anywhere inside becomes `{"ok": False, "error":
str(e)}`. -/
def mc_status (host : String) (port : Nat) (env : Env) : StatusResult :=
  match (mcStatusRun host port env).1 with
  | .ok r => .ok r
  | .error e => .offline e

/-! ## State effects of the exchange -/

theorem read_varint_sent (st : Sock) : (read_varint st).2.sent = st.sent := rfl

theorem read_varint_closed (st : Sock) : (read_varint st).2.closed = st.closed := rfl

theorem readPayloadS_sent (strLen : Nat) (st : Sock) :
    (readPayloadS strLen st).2.sent = st.sent := rfl

theorem readPayloadS_closed (strLen : Nat) (st : Sock) :
    (readPayloadS strLen st).2.closed = st.closed := rfl

/-- State effect of the network phase: with a representable port the sent
log always grows by exactly the handshake packet and the status request
(both sends happen before any read can raise), and the socket records
closed exactly when the phase returns the payload — `s.close()` is the
last step before returning, and every failure path skips it. -/
theorem mcNetPhase_state (host : String) (port : Nat) (st : Sock) :
    ((mcNetPhase host port st).2.sent
        = if port < 65536 then st.sent ++ mcHandshakePacket host port ++ statusRequestBytes
          else st.sent) ∧
    ((mcNetPhase host port st).2.closed
        = if (mcNetPhase host port st).1.isOk then true else st.closed) := by
  rcases hnp : mcNetPhase host port st with ⟨r, st2⟩
  dsimp only
  unfold mcNetPhase at hnp
  by_cases hp : port < 65536
  · rw [if_pos hp] at hnp
    simp only [if_pos hp]
    split at hnp
    next e st3 heq3 =>
      injection hnp with h1 h2
      subst h1
      subst h2
      have hs3 : st3.sent = st.sent ++ mcHandshakePacket host port ++ statusRequestBytes :=
        (congrArg (fun p => p.2.sent) heq3).symm
      have hc3 : st3.closed = st.closed :=
        (congrArg (fun p => p.2.closed) heq3).symm
      exact ⟨hs3, hc3⟩
    next a st3 heq3 =>
      have hs3 : st3.sent = st.sent ++ mcHandshakePacket host port ++ statusRequestBytes :=
        (congrArg (fun p => p.2.sent) heq3).symm
      have hc3 : st3.closed = st.closed :=
        (congrArg (fun p => p.2.closed) heq3).symm
      split at hnp
      next e st4 heq4 =>
        injection hnp with h1 h2
        subst h1
        subst h2
        have hs4 : st4.sent = st3.sent := (congrArg (fun p => p.2.sent) heq4).symm
        have hc4 : st4.closed = st3.closed := (congrArg (fun p => p.2.closed) heq4).symm
        exact ⟨hs4.trans hs3, hc4.trans hc3⟩
      next pid st4 heq4 =>
        have hs4 : st4.sent = st3.sent := (congrArg (fun p => p.2.sent) heq4).symm
        have hc4 : st4.closed = st3.closed := (congrArg (fun p => p.2.closed) heq4).symm
        split at hnp
        next hpid =>
          injection hnp with h1 h2
          subst h1
          subst h2
          exact ⟨hs4.trans hs3, hc4.trans hc3⟩
        next hpid =>
          split at hnp
          next e st5 heq5 =>
            injection hnp with h1 h2
            subst h1
            subst h2
            have hs5 : st5.sent = st4.sent := (congrArg (fun p => p.2.sent) heq5).symm
            have hc5 : st5.closed = st4.closed := (congrArg (fun p => p.2.closed) heq5).symm
            exact ⟨hs5.trans (hs4.trans hs3), hc5.trans (hc4.trans hc3)⟩
          next strLen st5 heq5 =>
            have hs5 : st5.sent = st4.sent := (congrArg (fun p => p.2.sent) heq5).symm
            have hc5 : st5.closed = st4.closed := (congrArg (fun p => p.2.closed) heq5).symm
            split at hnp
            next e st6 heq6 =>
              injection hnp with h1 h2
              subst h1
              subst h2
              have hs6 : st6.sent = st5.sent := (congrArg (fun p => p.2.sent) heq6).symm
              have hc6 : st6.closed = st5.closed := (congrArg (fun p => p.2.closed) heq6).symm
              exact ⟨hs6.trans (hs5.trans (hs4.trans hs3)),
                hc6.trans (hc5.trans (hc4.trans hc3))⟩
            next raw st6 heq6 =>
              injection hnp with h1 h2
              subst h1
              subst h2
              have hs6 : st6.sent = st5.sent := (congrArg (fun p => p.2.sent) heq6).symm
              exact ⟨hs6.trans (hs5.trans (hs4.trans hs3)), rfl⟩
  · rw [if_neg hp] at hnp
    simp only [if_neg hp]
    injection hnp with h1 h2
    subst h1
    subst h2
    exact ⟨rfl, rfl⟩

/-- The socket `mc_status` returns alongside its outcome is exactly the
network phase's final socket: the UTF-8/JSON/parse steps after it never
touch the socket. -/
theorem mcStatusRun_sock (host : String) (port : Nat) (env : Env)
    (hconn : env.connectErr = none) :
    (mcStatusRun host port env).2
      = some (mcNetPhase host port
          { buf := env.inbound, eof := env.eof, sent := [], closed := false }).2 := by
  unfold mcStatusRun
  rw [hconn]
  rcases hnp : mcNetPhase host port
      { buf := env.inbound, eof := env.eof, sent := [], closed := false } with ⟨r, st1⟩
  cases r with
  | error e => rfl
  | ok raw =>
    dsimp only
    cases hjl : jsonLoads (utf8DecodeReplace raw) with
    | error e => rfl
    | ok j =>
      try dsimp only
      cases hps : parseStatus j with
      | error e => rfl
      | ok r2 => rfl

/-- The outcome of `mc_status`'s body: the network phase's payload fed
through UTF-8 decoding, `json.loads`, and the field parser, with each
stage's error propagating. -/
theorem mcStatusRun_fst (host : String) (port : Nat) (env : Env)
    (hconn : env.connectErr = none) :
    (mcStatusRun host port env).1
      = (match (mcNetPhase host port
            { buf := env.inbound, eof := env.eof, sent := [], closed := false }).1 with
        | .error e => .error e
        | .ok raw =>
          match jsonLoads (utf8DecodeReplace raw) with
          | .error e => .error e
          | .ok j => parseStatus j) := by
  unfold mcStatusRun
  rw [hconn]
  rcases hnp : mcNetPhase host port
      { buf := env.inbound, eof := env.eof, sent := [], closed := false } with ⟨r, st1⟩
  cases r with
  | error e => rfl
  | ok raw =>
    dsimp only
    cases hjl : jsonLoads (utf8DecodeReplace raw) with
    | error e => rfl
    | ok j =>
      try dsimp only
      cases hps : parseStatus j with
      | error e => rfl
      | ok r2 => rfl

/-! ## The claims about the exchange -/

/-- C2: `mc_status` never raises. For every connection behaviour its
result is either the `"ok": True` dict, or — exactly when its body
raised `e` at any stage (connect, send/recv, protocol check, JSON
decode, field parsing) — the `{"ok": False, "error": str(e)}` dict; the
exception itself never reaches the caller, the result being the sole
channel for failure. -/
theorem c2_mc_status_never_raises (host : String) (port : Nat) (env : Env) :
    (∃ e, (mcStatusRun host port env).1 = .error e ∧ mc_status host port env = .offline e) ∨
    (∃ r, (mcStatusRun host port env).1 = .ok r ∧ mc_status host port env = .ok r) := by
  cases h : (mcStatusRun host port env).1 with
  | error e => exact Or.inl ⟨e, rfl, by unfold mc_status; rw [h]⟩
  | ok r => exact Or.inr ⟨r, rfl, by unfold mc_status; rw [h]⟩

/-- C3 counterexample: the server declares a 10-byte payload but the
stream closes cleanly after delivering only the two bytes of `"{}"`
(inbound: frame length 20, packet id 0, string length 10, `{`, `}`).
`mc_status` proceeds with the partial bytes and returns the OK result
parsed from them — not an IncompleteFrame-style offline failure. -/
theorem c3_counterexample :
    mc_status "example.com" 25565
        { connectErr := none, inbound := [20, 0, 10, 123, 125], eof := true }
      = .ok { online := 0, max := 0, motd := .str "", sample := [] } := by
  have hnet : (mcNetPhase "example.com" 25565
      { buf := [20, 0, 10, 123, 125], eof := true, sent := [], closed := false }).1
      = .ok [123, 125] := by
    simp +decide [mcNetPhase, read_varint, readVarintCore, readPayloadS, readPayloadCore_spec]
  unfold mc_status
  rw [mcStatusRun_fst _ _ _ rfl, hnet]
  have hustr : utf8DecodeReplace [123, 125] = "\x7b\x7d" := by
    show String.mk (utf8DecodeAux [123, 125]) = _
    rw [utf8DecodeAux_ascii [123, 125] (by decide)]
    decide
  dsimp only
  rw [hustr]
  rfl

/-- C3 amended: when the stream closes cleanly after delivering fewer
than the declared `str_len` bytes, the read loop of lines 212-217 BREAKS
and returns the partial bytes rather than raising; `mc_status` then
feeds them to `json.loads`, so the probe comes back Offline only when the
partial prefix fails JSON parsing — and even succeeds when the prefix
happens to be valid JSON. No IncompleteFrame error exists in the code. -/
theorem c3_short_read_keeps_bytes (strLen : Nat) (st : Sock)
    (heof : st.eof = true) (hshort : st.buf.length < strLen) :
    readPayloadS strLen st = (.ok st.buf, { st with buf := [] }) := by
  unfold readPayloadS
  simp only [readPayloadCore_spec]
  have h1 : ¬ (strLen ≤ ([] : List Nat).length) := by
    simp only [List.length_nil, Nat.le_zero]
    omega
  have h2 : ¬ (strLen - ([] : List Nat).length ≤ st.buf.length) := by
    simp only [List.length_nil, Nat.sub_zero]
    omega
  rw [if_neg h1, if_neg h2, heof]
  simp

theorem c3_witness :
    ({ buf := [123, 125], eof := true, sent := [], closed := false } : Sock).eof = true ∧
    readPayloadS 10 { buf := [123, 125], eof := true, sent := [], closed := false }
      = (.ok [123, 125], { buf := [], eof := true, sent := [], closed := false }) :=
  ⟨rfl, c3_short_read_keeps_bytes 10 _ rfl (by norm_num)⟩

/-- The spec's outbound framer (§4.2): `frameBody = encode(packetId) ++
body`, sent as `encode(len(frameBody)) ++ frameBody` — the length prefix
is computed over the id+body concatenation. -/
def specFramePacket (packetId : Nat) (body : List Nat) : List Nat :=
  pack_varint (((pack_varint ((packetId : Nat) : Int) ++ body).length : Int))
    ++ (pack_varint ((packetId : Nat) : Int) ++ body)

/-- The spec's handshake body (§4.3 step 1, §6): `encode(protocolVersion)
++ encode(len(hostBytes)) ++ hostBytes ++ bigEndianUint16(port) ++
encode(1)`, with the fixed protocol version 762. -/
def specHandshakeBody (host : String) (port : Nat) : List Nat :=
  pack_varint 762 ++ pack_varint (((hostBytes host).length : Int)) ++ hostBytes host
    ++ packUShortBE port ++ pack_varint 1

/-- C4: for every host and 16-bit port, the handshake packet `mc_status`
sends is bit-exact per the spec — a VarInt length prefix computed over
the id+body concatenation, then packet id 0x00, `encode(762)`,
`encode(len(hostBytes))`, the UTF-8 host bytes, the big-endian port, and
`encode(1)` for next state = status; moreover on every connected run the
bytes put on the wire are exactly this packet followed by the status
request. -/
theorem c4_handshake_packet (host : String) (port : Nat) (env : Env)
    (hport : port < 65536) (hconn : env.connectErr = none) :
    mcHandshakePacket host port = specFramePacket 0 (specHandshakeBody host port) ∧
    (∀ st, (mcStatusRun host port env).2 = some st →
      st.sent = mcHandshakePacket host port ++ statusRequestBytes) := by
  constructor
  · unfold mcHandshakePacket mcHandshakeData specFramePacket specHandshakeBody
    simp [List.append_assoc, Nat.cast_zero]
  · intro st hst
    rw [mcStatusRun_sock host port env hconn] at hst
    have hst2 : st = (mcNetPhase host port
        { buf := env.inbound, eof := env.eof, sent := [], closed := false }).2 :=
      (Option.some.inj hst).symm
    rw [hst2, (mcNetPhase_state host port _).1, if_pos hport]
    simp

theorem c4_witness :
    25565 < 65536 ∧
    mcHandshakePacket "localhost" 25565
      = specFramePacket 0 (specHandshakeBody "localhost" 25565) :=
  ⟨by norm_num, (c4_handshake_packet "localhost" 25565
    { connectErr := none, inbound := [], eof := true } (by norm_num) rfl).1⟩

/-- C8 counterexample: a server that answers with packet id 1 (inbound:
frame length 5, packet id 1, clean close) makes `mc_status` return the
offline dict — and the socket is left UNclosed at return: the
`ValueError` jumps over `s.close()` (line 218) straight to `except`,
and no `finally`/`with` exists. -/
theorem c8_counterexample :
    mc_status "localhost" 25565 { connectErr := none, inbound := [5, 1], eof := true }
      = .offline ("Unexpected packet id 1") ∧
    (mcStatusRun "localhost" 25565
        { connectErr := none, inbound := [5, 1], eof := true }).2.map Sock.closed
      = some false :=
  ⟨rfl, rfl⟩

/-- C8 amended: on a run that opens a socket, the socket ends closed if
and only if the network phase (through reading the payload and the
`s.close()` of line 218) completes; the decode/parse failures that can
still make the probe Offline happen after the close, while timeouts,
EOFs and protocol errors leave the socket unclosed at return. -/
theorem c8_socket_close_iff (host : String) (port : Nat) (env : Env)
    (hconn : env.connectErr = none) :
    ((mcStatusRun host port env).2.map Sock.closed = some true
      ↔ (mcNetPhase host port
          { buf := env.inbound, eof := env.eof, sent := [], closed := false }).1.isOk = true) := by
  rw [mcStatusRun_sock host port env hconn]
  rw [Option.map_some']
  rw [(mcNetPhase_state host port _).2]
  cases h : (mcNetPhase host port
      { buf := env.inbound, eof := env.eof, sent := [], closed := false }).1.isOk
  · simp [h]
  · simp [h]

theorem c8_witness :
    (mcStatusRun "localhost" 25565
        { connectErr := none, inbound := [4, 0, 2, 123, 125], eof := true }).2.map Sock.closed
      = some true := by
  apply (c8_socket_close_iff "localhost" 25565
    { connectErr := none, inbound := [4, 0, 2, 123, 125], eof := true } rfl).mpr
  simp +decide [mcNetPhase, read_varint, readVarintCore, readPayloadS, readPayloadCore_spec,
    Except.isOk]
